import Mathlib

/-!
Verification of the document assembly and page-addressing core of the
pdf-utilities-mcp repository.

The embedding covers:
* `PDFTools.parsePageRange` and the engine operations `mergePDFs`, `splitPDF`,
  `updatePDFMetadata`, `extractPages`, `readPDF`, `getPDFInfo`, `createPDF`
  (src pdf-tools.js);
* the MCP `CallToolRequestSchema` handler of `PDFUtilitiesServer`
  (src/extension/mcp-server/index.js), modelled as `PDFUtilitiesServer.callTool`.

The filesystem is modelled as an association list from paths to parsed
documents; JS `undefined` arguments are modelled with `Option`; exceptions are
modelled with `Except String`.  The byte-level PDF codec, the font-metric text
layout of `createPDF` and the text extraction of pdf-parse are external
collaborators (spec section 1) and are modelled as an opaque record of
functions (`Codec`).
-/

set_option linter.unusedVariables false

/-- A page is an opaque unit; we give pages identities by natural numbers so
that page sequences can be compared.  Copying a page into another document
copies this identity (content equality), matching the codec contract. -/
abbrev Page := Nat

/-- Document-level descriptive metadata, as manipulated through the pdf-lib
setters used by the source (`setTitle`, `setAuthor`, `setSubject`,
`setKeywords`, `setCreator`, `setProducer`, `setCreationDate`,
`setModificationDate`).  Timestamps are modelled as natural numbers. -/
structure PDFMeta where
  title : Option String
  author : Option String
  subject : Option String
  keywords : Option (List String)
  creator : Option String
  producer : Option String
  creationDate : Option Nat
  modificationDate : Option Nat
  deriving DecidableEq, Repr

/-- A parsed document: an ordered sequence of pages plus a metadata record. -/
structure PDFDoc where
  pages : List Page
  meta : PDFMeta
  deriving DecidableEq, Repr

/-- Metadata with every descriptive field absent. -/
def emptyMeta : PDFMeta :=
  ⟨none, none, none, none, none, none, none, none⟩

/-- The filesystem: an association list from paths to stored documents.
Later writes shadow earlier entries. -/
abbrev FS := List (String × PDFDoc)

/-- `existsSync`/`readFileSync`/`PDFDocument.load` combined: look a stored
document up by path. -/
def fsLookup (fs : FS) (p : String) : Option PDFDoc :=
  (fs.find? (fun e => e.1 = p)).map (fun e => e.2)

/-- `writeFileSync`: store a document at a path (shadowing old contents). -/
def fsWrite (fs : FS) (p : String) (d : PDFDoc) : FS :=
  (p, d) :: fs

/-- JS string interpolation of a possibly-`undefined` string value. -/
def jsShow : Option String → String
  | some s => s
  | none => "undefined"

/-- Path lookup where the path itself may be `undefined` (Node's
`existsSync` returns `false` for such arguments). -/
def fsLookupO (fs : FS) (p : Option String) : Option PDFDoc :=
  match p with
  | some s => fsLookup fs s
  | none => none

/-- JS truthiness of a possibly-`undefined` string: `undefined` and the empty
string are falsy, every other string is truthy. -/
def truthyStr : Option String → Bool
  | some s => !s.isEmpty
  | none => false

/-- JS `a || b` for a possibly-`undefined` string `a` and a string default. -/
def jsOrElse (a : Option String) (b : String) : String :=
  match a with
  | some s => if s.isEmpty then b else s
  | none => b

/-! ### JS string primitives on character lists

The source manipulates strings through `split`, `trim`, `includes` and
`parseInt`.  These are modelled structurally on `List Char` so that every
definition reduces inside the kernel. -/

/-- JS `String.prototype.split` with a one-character separator.
`splitChar sep cs` always returns at least one (possibly empty) piece;
in particular splitting the empty string yields `[[]]`, as in JS. -/
def splitChar (sep : Char) : List Char → List (List Char)
  | [] => [[]]
  | c :: rest =>
    if c = sep then [] :: splitChar sep rest
    else
      match splitChar sep rest with
      | [] => [[c]]
      | h :: t => (c :: h) :: t

/-- Whitespace recognised by JS `trim` (the characters relevant here). -/
def isJsWhitespace (c : Char) : Bool :=
  c = ' ' || c = '\t' || c = '\n' || c = '\r'

/-- JS `String.prototype.trim`: drop whitespace from both ends. -/
def trimBoth (cs : List Char) : List Char :=
  ((cs.dropWhile isJsWhitespace).reverse.dropWhile isJsWhitespace).reverse

/-- Decimal digit value of a character, `none` for non-digits. -/
def digitVal (c : Char) : Option Nat :=
  if c.isDigit then some (c.toNat - 48) else none

/-- Hexadecimal digit value of a character, `none` for non-hex-digits. -/
def hexDigitVal (c : Char) : Option Nat :=
  if c.isDigit then some (c.toNat - 48)
  else if 'a' ≤ c && c ≤ 'f' then some (c.toNat - 87)
  else if 'A' ≤ c && c ≤ 'F' then some (c.toNat - 55)
  else none

/-- Accumulate the maximal digit run at the front of `cs` into `acc`
(the tail after the first non-digit is ignored, as in JS `parseInt`). -/
def parseDigitsAux (dv : Char → Option Nat) (base : Nat) : List Char → Nat → Nat
  | [], acc => acc
  | c :: rest, acc =>
    match dv c with
    | some d => parseDigitsAux dv base rest (acc * base + d)
    | none => acc

/-- Parse the maximal digit prefix of `cs`; `none` when it is empty. -/
def parseDigits (dv : Char → Option Nat) (base : Nat) : List Char → Option Nat
  | [] => none
  | c :: rest =>
    match dv c with
    | some d => some (parseDigitsAux dv base rest d)
    | none => none

/-- The unsigned part of JS `parseInt` with no radix argument: a `0x`/`0X`
prefix selects hexadecimal, otherwise the number is decimal; `none` models
`NaN`. -/
def parseUnsignedJS (cs : List Char) : Option Nat :=
  match cs with
  | '0' :: 'x' :: rest => parseDigits hexDigitVal 16 rest
  | '0' :: 'X' :: rest => parseDigits hexDigitVal 16 rest
  | _ => parseDigits digitVal 10 cs

/-- JS `parseInt(s)` on an already-trimmed character list: an optional sign
followed by the unsigned part; `none` models `NaN`. -/
def parseIntChars (cs : List Char) : Option Int :=
  match cs with
  | '+' :: rest => (parseUnsignedJS rest).map Int.ofNat
  | '-' :: rest => (parseUnsignedJS rest).map (fun n => -(n : Int))
  | _ => (parseUnsignedJS cs).map Int.ofNat

/-- The inclusive integer range traversed by `for (let i = start; i <= end; i++)`:
empty when `s > e`. -/
def intRangeIncl (s e : Int) : List Int :=
  (List.range (e + 1 - s).toNat).map (fun (k : Nat) => s + (k : Int))

namespace PDFTools

/-- The range arm of the `parsePageRange` loop body: given the `parseInt`-ed
start and end of a hyphen token, `for (let i = start; i <= end; i++)` pushes
only in-bound values, as 0-based indices.  `none` models `NaN`, whose
comparisons are all false in JS, so the loop body never runs. -/
def rangeArm (s e : Option Int) (totalPages : Nat) : List Nat :=
  match s, e with
  | some s', some e' =>
    (intRangeIncl s' e').filterMap (fun i =>
      if 1 ≤ i ∧ i ≤ (totalPages : Int) then some (i - 1).toNat else none)
  | _, _ => []

/-- The single-page arm: `parseInt` the trimmed part and push it (0-based)
when in bounds; `none` models `NaN`, whose comparisons are false. -/
def singleArm (p : Option Int) (totalPages : Nat) : List Nat :=
  match p with
  | some p' => if 1 ≤ p' ∧ p' ≤ (totalPages : Int) then [(p' - 1).toNat] else []
  | none => []

/-- One iteration of the `for (const part of parts)` loop body of
`parsePageRange`: a part containing a hyphen is split on hyphens, its first
two pieces are trimmed and `parseInt`-ed and fed to the range arm; any other
part is trimmed, `parseInt`-ed and fed to the single-page arm. -/
def partPages (part : List Char) (totalPages : Nat) : List Nat :=
  if part.contains '-' then
    rangeArm
      (((splitChar '-' part).map (fun s => parseIntChars (trimBoth s))).getD 0 none)
      (((splitChar '-' part).map (fun s => parseIntChars (trimBoth s))).getD 1 none)
      totalPages
  else
    singleArm (parseIntChars (trimBoth part)) totalPages

/-- `PDFTools.parsePageRange(range, totalPages)`: split the expression on
commas and concatenate the pages contributed by each part, in order.
The returned values are 0-based page indices. -/
def parsePageRange (range : String) (totalPages : Nat) : List Nat :=
  (splitChar ',' range.data).flatMap (fun part => partPages part totalPages)

end PDFTools

/-! ### Result records returned by the engine operations -/

/-- Result shape of `createPDF`, `mergePDFs` and `splitPDF`:
`\x7b success, path, pages \x7d`. -/
structure SavedResult where
  success : Bool
  path : String
  pages : Nat
  deriving DecidableEq, Repr

/-- Result shape of `updatePDFMetadata`: `\x7b success, path \x7d`. -/
structure UpdateResult where
  success : Bool
  path : String
  deriving DecidableEq, Repr

/-- Result shape of `extractPages`: `\x7b success, files \x7d`. -/
structure ExtractResult where
  success : Bool
  files : List String
  deriving DecidableEq, Repr

/-- The info record built by `readPDF`/`getPDFInfo` from pdf-parse output and
`statSync`. -/
structure PDFInfoR where
  pages : Nat
  title : Option String
  author : Option String
  subject : Option String
  creator : Option String
  producer : Option String
  creationDate : Option Nat
  modificationDate : Option Nat
  fileSize : Nat
  filePath : String
  deriving DecidableEq, Repr

/-- Result shape of `readPDF`: `\x7b text, pages, info \x7d`. -/
structure ReadResult where
  text : String
  pages : Nat
  info : PDFInfoR
  deriving DecidableEq, Repr

/-- The optional formatting/metadata record accepted by `createPDF`.  The
`margins` geometry is consumed only by the text-layout collaborator and is
folded into `Codec.layout`. -/
structure CreateOptions where
  title : Option String
  author : Option String
  subject : Option String
  fontSize : Option Nat
  pageSize : Option String
  deriving DecidableEq, Repr

/-- External collaborators (spec sections 1 and 6): the font-metric text
layout used by `createPDF` (content plus options to a page list), the
pdf-parse text extraction, and the byte size of a stored document. -/
structure Codec where
  layout : CreateOptions → String → List Page
  extractText : List Page → String
  byteSize : PDFDoc → Nat

/-- Node's TypeError message for `writeFileSync(undefined, ...)`. -/
def pathTypeErrMsg : String :=
  "The \x22path\x22 argument must be of type string. Received undefined"

/-- pdf-lib `copyPages`: copying by 0-based indices; an out-of-range index
makes pdf-lib throw. -/
def copyPages (doc : PDFDoc) (indices : List Nat) : Except String (List Page) :=
  if indices.all (fun i => i < doc.pages.length) then
    .ok (indices.filterMap (fun i => doc.pages.get? i))
  else .error "Page index out of bounds"

namespace PDFTools

/-- `readPDF(filePath, pageRange)`: fail when the file is missing; otherwise
extract text and build the info record; when a page range is given it is
parsed (the parse result is discarded) and the text is prefixed with an
extraction banner. -/
def readPDF (cdc : Codec) (fs : FS) (filePath : Option String)
    (pageRange : Option String) : Except String ReadResult :=
  match fsLookupO fs filePath with
  | none => .error ("File not found: " ++ jsShow filePath)
  | some doc =>
    let info : PDFInfoR :=
      ⟨doc.pages.length, doc.meta.title, doc.meta.author, doc.meta.subject,
       doc.meta.creator, doc.meta.producer, doc.meta.creationDate,
       doc.meta.modificationDate, cdc.byteSize doc, jsShow filePath⟩
    let baseText := cdc.extractText doc.pages
    match pageRange with
    | none => .ok ⟨baseText, doc.pages.length, info⟩
    | some pr =>
      let pgs := parsePageRange pr doc.pages.length
      .ok ⟨"[Extracted pages " ++ pr ++ "]\n" ++ baseText, doc.pages.length, info⟩

/-- `getPDFInfo(filePath)`: fail when the file is missing; otherwise return
the metadata/info record. -/
def getPDFInfo (cdc : Codec) (fs : FS) (filePath : Option String) :
    Except String PDFInfoR :=
  match fsLookupO fs filePath with
  | none => .error ("File not found: " ++ jsShow filePath)
  | some doc =>
    .ok ⟨doc.pages.length, doc.meta.title, doc.meta.author, doc.meta.subject,
         doc.meta.creator, doc.meta.producer, doc.meta.creationDate,
         doc.meta.modificationDate, cdc.byteSize doc, jsShow filePath⟩

/-- `createPDF(content, outputPath, options = \x7b\x7d)`: set the truthy
metadata options, stamp creator/producer and both dates, lay the text out
into pages via the external layout collaborator, and write the result.
An `undefined` content throws inside `wrapText` (`content.split`); an
`undefined` output path makes `writeFileSync` throw. -/
def createPDF (cdc : Codec) (fs : FS) (content : Option String)
    (outputPath : Option String) (options : Option CreateOptions) (now : Nat) :
    FS × Except String SavedResult :=
  let opts := options.getD ⟨none, none, none, none, none⟩
  let meta : PDFMeta :=
    { title := if truthyStr opts.title then opts.title else none
      author := if truthyStr opts.author then opts.author else none
      subject := if truthyStr opts.subject then opts.subject else none
      keywords := none
      creator := some "PDF Utilities MCP"
      producer := some "pdf-lib"
      creationDate := some now
      modificationDate := some now }
  match content with
  | none => (fs, .error "Cannot read properties of undefined (reading \x27split\x27)")
  | some text =>
    let pgs := cdc.layout opts text
    match outputPath with
    | none => (fs, .error pathTypeErrMsg)
    | some op =>
      (fsWrite fs op ⟨pgs, meta⟩, .ok ⟨true, op, pgs.length⟩)

/-- The `for (const filePath of filePaths)` loop of `mergePDFs`: check each
source exists (in list order, failing at the first missing one) and
concatenate the page sequences of all sources. -/
def mergeLoad (fs : FS) : List String → Except String (List Page)
  | [] => .ok []
  | p :: rest =>
    match fsLookup fs p with
    | none => .error ("File not found: " ++ p)
    | some doc => (mergeLoad fs rest).map (fun pgs => doc.pages ++ pgs)

/-- Metadata stamped onto a merged document: fresh record with creator,
producer and modification date set (`mergePDFs` sets no creation date). -/
def mergeMeta (now : Nat) : PDFMeta :=
  { emptyMeta with
    creator := some "PDF Utilities MCP"
    producer := some "pdf-lib"
    modificationDate := some now }

/-- `mergePDFs(filePaths, outputPath)`: reject an empty list, load and append
every source's pages in order, stamp fresh metadata, and only then write the
merged document.  An `undefined` path list throws on `.length`. -/
def mergePDFs (fs : FS) (filePaths : Option (List String))
    (outputPath : Option String) (now : Nat) : FS × Except String SavedResult :=
  match filePaths with
  | none => (fs, .error "Cannot read properties of undefined (reading \x27length\x27)")
  | some ps =>
    if ps.length = 0 then (fs, .error "No PDF files provided for merging")
    else
      match mergeLoad fs ps with
      | .error e => (fs, .error e)
      | .ok pgs =>
        match outputPath with
        | none => (fs, .error pathTypeErrMsg)
        | some op =>
          (fsWrite fs op ⟨pgs, mergeMeta now⟩, .ok ⟨true, op, pgs.length⟩)

/-- Metadata stamped onto a split document: fresh record with creator,
producer and creation date set (`splitPDF` sets no modification date). -/
def splitMeta (now : Nat) : PDFMeta :=
  { emptyMeta with
    creator := some "PDF Utilities MCP"
    producer := some "pdf-lib"
    creationDate := some now }

/-- `splitPDF(filePath, pageRange, outputPath)`: load the source, resolve the
range expression against its page count, copy the resolved pages (in resolved
order, repeats included) into a new document and write it out.  An
`undefined` range throws on `.split`. -/
def splitPDF (fs : FS) (filePath : Option String) (pageRange : Option String)
    (outputPath : Option String) (now : Nat) : FS × Except String SavedResult :=
  match fsLookupO fs filePath with
  | none => (fs, .error ("File not found: " ++ jsShow filePath))
  | some doc =>
    match pageRange with
    | none => (fs, .error "Cannot read properties of undefined (reading \x27split\x27)")
    | some rng =>
      let idxs := parsePageRange rng doc.pages.length
      match copyPages doc idxs with
      | .error e => (fs, .error e)
      | .ok pgs =>
        match outputPath with
        | none => (fs, .error pathTypeErrMsg)
        | some op =>
          (fsWrite fs op ⟨pgs, splitMeta now⟩, .ok ⟨true, op, pgs.length⟩)

/-- The partial-update record accepted by `updatePDFMetadata`. -/
structure MetaUpdates where
  title : Option String
  author : Option String
  subject : Option String
  keywords : Option String
  deriving DecidableEq, Repr

/-- The update record with every field absent. -/
def emptyUpdates : MetaUpdates := ⟨none, none, none, none⟩

/-- The field-by-field guarded assignment of `updatePDFMetadata`:
`if (metadata.title) pdfDoc.setTitle(metadata.title)` and so on — a field is
applied only when truthy (present and non-empty), keywords are wrapped in a
one-element array, and the modification date is always refreshed. -/
def applyUpdates (m : PDFMeta) (u : MetaUpdates) (now : Nat) : PDFMeta :=
  let m1 := if truthyStr u.title then { m with title := u.title } else m
  let m2 := if truthyStr u.author then { m1 with author := u.author } else m1
  let m3 := if truthyStr u.subject then { m2 with subject := u.subject } else m2
  let m4 :=
    if truthyStr u.keywords then
      { m3 with keywords := u.keywords.map (fun k => [k]) }
    else m3
  { m4 with modificationDate := some now }

/-- `updatePDFMetadata(filePath, metadata, outputPath?)`: load the source,
apply the truthy fields of the update record, refresh the modification date,
and save to `outputPath || filePath`.  An `undefined` metadata record throws
on `.title`. -/
def updatePDFMetadata (fs : FS) (filePath : Option String)
    (metadata : Option MetaUpdates) (outputPath : Option String) (now : Nat) :
    FS × Except String UpdateResult :=
  match fsLookupO fs filePath with
  | none => (fs, .error ("File not found: " ++ jsShow filePath))
  | some doc =>
    match metadata with
    | none => (fs, .error "Cannot read properties of undefined (reading \x27title\x27)")
    | some u =>
      let newDoc : PDFDoc := { doc with meta := applyUpdates doc.meta u now }
      let savePath := jsOrElse outputPath (jsShow filePath)
      (fsWrite fs savePath newDoc, .ok ⟨true, savePath⟩)

/-- The `for (const pageNum of pages)` loop of `extractPages`: validate each
requested number against the page count, and for a valid number copy that
single page into a fresh one-page document and write it to
`dir/pfx_pageNum.pdf` before moving on; the first invalid number throws,
leaving the files already written on disk. -/
def extractLoop (fs : FS) (doc : PDFDoc) (nums : List Int) (dir pfx : String) :
    FS × Except String (List String) :=
  match nums with
  | [] => (fs, .ok [])
  | n :: rest =>
    if n < 1 ∨ (doc.pages.length : Int) < n then
      (fs, .error ("Invalid page number: " ++ toString n))
    else
      match copyPages doc [(n - 1).toNat] with
      | .error e => (fs, .error e)
      | .ok pgs =>
        let out := dir ++ "/" ++ pfx ++ "_" ++ toString n ++ ".pdf"
        let next := extractLoop (fsWrite fs out ⟨pgs, emptyMeta⟩) doc rest dir pfx
        (next.1, next.2.map (fun files => out :: files))

/-- `extractPages(filePath, pages, outputDir, prefix = \x27page\x27)`: load the
source and run the per-page extraction loop; on success return every created
path in input order.  An `undefined` page list makes `for..of` throw. -/
def extractPages (fs : FS) (filePath : Option String) (pages : Option (List Int))
    (outputDir : Option String) (fnPfx : Option String) :
    FS × Except String ExtractResult :=
  match fsLookupO fs filePath with
  | none => (fs, .error ("File not found: " ++ jsShow filePath))
  | some doc =>
    match pages with
    | none => (fs, .error "pages is not iterable")
    | some nums =>
      let r := extractLoop fs doc nums (jsShow outputDir) (fnPfx.getD "page")
      (r.1, r.2.map (fun files => ⟨true, files⟩))

end PDFTools

/-! ### The MCP tool dispatcher -/

/-- The loosely-typed argument record of a tool call; each field may be
absent (JS `undefined`). -/
structure ToolArgs where
  filePath : Option String
  pageRange : Option String
  content : Option String
  outputPath : Option String
  options : Option CreateOptions
  filePaths : Option (List String)
  metadata : Option PDFTools.MetaUpdates
  pages : Option (List Int)
  outputDir : Option String
  fnPfx : Option String
  deriving DecidableEq, Repr

/-- The argument record with every field absent. -/
def emptyArgs : ToolArgs :=
  ⟨none, none, none, none, none, none, none, none, none, none⟩

/-- A tool-call request: `request.params` with its `name` and (possibly
absent) `arguments`. -/
structure ToolRequest where
  name : String
  arguments : Option ToolArgs
  deriving DecidableEq, Repr

/-- The operation-specific structured data whose `JSON.stringify` forms the
success text of the response. -/
inductive OpOutcome where
  | readText (r : ReadResult)
  | info (r : PDFInfoR)
  | saved (r : SavedResult)
  | updated (r : UpdateResult)
  | extracted (r : ExtractResult)
  deriving DecidableEq, Repr

/-- The body of the single text content item of a tool response: either the
stringified success result, or the stringified failure object
`\x7b error, success: false \x7d` produced by the catch block. -/
inductive ToolPayload where
  | ok (result : OpOutcome)
  | fail (error : String)
  deriving DecidableEq, Repr

/-- A tool response: the payload plus the `isError` flag (absent, hence
false, on success). -/
structure ToolResponse where
  payload : ToolPayload
  isError : Bool
  deriving DecidableEq, Repr

/-- The names in the static tool registry exposed by `ListTools` and matched
by the `switch` of the call handler. -/
def knownOps : List String :=
  ["read_pdf", "get_pdf_info", "create_pdf", "merge_pdfs", "split_pdf",
   "update_pdf_metadata", "extract_pages"]

namespace PDFUtilitiesServer

/-- The `switch (name)` of the call handler: select the engine method for a
known operation name and run it on the raw (unvalidated) argument fields,
recording which engine method was invoked; `none` for an unknown name
(the `default` branch). -/
def runOp (cdc : Codec) (fs : FS) (args : ToolArgs) (now : Nat) (name : String) :
    Option (FS × Except String OpOutcome × String) :=
  if name = "read_pdf" then
    some (fs, (PDFTools.readPDF cdc fs args.filePath args.pageRange).map .readText,
          "readPDF")
  else if name = "get_pdf_info" then
    some (fs, (PDFTools.getPDFInfo cdc fs args.filePath).map .info, "getPDFInfo")
  else if name = "create_pdf" then
    let r := PDFTools.createPDF cdc fs args.content args.outputPath args.options now
    some (r.1, r.2.map .saved, "createPDF")
  else if name = "merge_pdfs" then
    let r := PDFTools.mergePDFs fs args.filePaths args.outputPath now
    some (r.1, r.2.map .saved, "mergePDFs")
  else if name = "split_pdf" then
    let r := PDFTools.splitPDF fs args.filePath args.pageRange args.outputPath now
    some (r.1, r.2.map .saved, "splitPDF")
  else if name = "update_pdf_metadata" then
    let r := PDFTools.updatePDFMetadata fs args.filePath args.metadata
      args.outputPath now
    some (r.1, r.2.map .updated, "updatePDFMetadata")
  else if name = "extract_pages" then
    let r := PDFTools.extractPages fs args.filePath args.pages args.outputDir
      args.fnPfx
    some (r.1, r.2.map .extracted, "extractPages")
  else none

/-- The catch-block conversion: a success becomes the stringified result, an
exception message becomes the failure object with `isError: true`. -/
def wrapResult : Except String OpOutcome → ToolResponse
  | .ok o => ⟨.ok o, false⟩
  | .error e => ⟨.fail e, true⟩

/-- The `CallToolRequestSchema` handler of `PDFUtilitiesServer`: reject a
missing argument record, dispatch known names through the switch, wrap any
thrown exception into the failure payload, and answer an unknown name with
the wrapped `Unknown tool` error.  The third component records which engine
methods were invoked while handling the call. -/
def callTool (cdc : Codec) (fs : FS) (req : ToolRequest) (now : Nat) :
    FS × ToolResponse × List String :=
  match req.arguments with
  | none => (fs, ⟨.fail "Missing arguments for tool call", true⟩, [])
  | some args =>
    match runOp cdc fs args now req.name with
    | some (fs', r, m) => (fs', wrapResult r, [m])
    | none => (fs, ⟨.fail ("Unknown tool: " ++ req.name), true⟩, [])

end PDFUtilitiesServer

/-- A concrete codec instance used by closed counterexamples and witnesses. -/
def trivialCodec : Codec :=
  ⟨fun _ _ => [], fun _ => "", fun _ => 0⟩

/-! ### Specification-side definitions

These definitions follow the spec's words (section 4.1 grammar, section 4.2
extraction behaviour); the theorems compare the source-derived functions
above against them. -/

/-- Decimal value of a character list, most significant digit first. -/
def valD (cs : List Char) : Nat :=
  cs.foldl (fun a c => a * 10 + (c.toNat - 48)) 0

/-- A non-empty run of decimal digits. -/
def isDigitSeq (cs : List Char) : Bool :=
  !cs.isEmpty && cs.all Char.isDigit

/-- Validity of one token per the spec grammar (section 4.1): after trimming,
either a single decimal integer in `[1, totalPages]`, or a hyphen-joined pair
of decimal integers each in bounds with start at most end. -/
def validTokenB (t : List Char) (total : Nat) : Bool :=
  if t.contains '-' then
    match splitChar '-' t with
    | [a, b] =>
      isDigitSeq (trimBoth a) && isDigitSeq (trimBoth b) &&
        decide (1 ≤ valD (trimBoth a)) &&
        decide (valD (trimBoth a) ≤ valD (trimBoth b)) &&
        decide (valD (trimBoth b) ≤ total)
    | _ => false
  else
    isDigitSeq (trimBoth t) && decide (1 ≤ valD (trimBoth t)) &&
      decide (valD (trimBoth t) ≤ total)

/-- Validity of a whole page-range expression per the spec grammar: every
comma-separated token is valid. -/
def validExprB (range : String) (total : Nat) : Bool :=
  (splitChar ',' range.data).all (fun t => validTokenB t total)

/-- The 1-based page sequence a valid token denotes per the spec: a single
page `[v]`, or the inclusive ascending range `[start..end]`. -/
def tokenPagesSpec (t : List Char) : List Nat :=
  if t.contains '-' then
    match splitChar '-' t with
    | [a, b] =>
      (List.range (valD (trimBoth b) + 1 - valD (trimBoth a))).map
        (fun k => valD (trimBoth a) + k)
    | _ => []
  else [valD (trimBoth t)]

/-- Validity of a literal page number for `extractPages`:
`1 <= n <= totalPages`. -/
def isValidPage (total : Nat) (n : Int) : Bool :=
  decide (1 ≤ n) && decide (n ≤ (total : Int))

/-- The first requested page number that is out of range, if any. -/
def firstInvalidPage (nums : List Int) (total : Nat) : Option Int :=
  nums.find? (fun n => !isValidPage total n)

/-- The deterministic output path `dir/pfx_n.pdf` of one extracted page. -/
def extractFileName (dir pfx : String) (n : Int) : String :=
  dir ++ "/" ++ pfx ++ "_" ++ toString n ++ ".pdf"

/-- The one-page document `extractPages` writes for the valid page number
`n`: the single page at 0-based index `n - 1`, with fresh metadata. -/
def extractedDoc (doc : PDFDoc) (n : Int) : PDFDoc :=
  ⟨[(n - 1).toNat].filterMap (fun i => doc.pages.get? i), emptyMeta⟩

/-- The filesystem obtained from `fs` by writing the extracted one-page file
of every number in `nums`, in order. -/
def extractWrites (fs : FS) (doc : PDFDoc) (dir pfx : String)
    (nums : List Int) : FS :=
  nums.foldl
    (fun a n => fsWrite a (extractFileName dir pfx n) (extractedDoc doc n)) fs

/-- A document with `n` distinct pages, used by concrete counterexamples. -/
def docN (n : Nat) : PDFDoc := ⟨List.range n, emptyMeta⟩

/-- A one-file filesystem holding a ten-page document. -/
def fsTen : FS := [("doc.pdf", docN 10)]

/-- A one-file filesystem holding a twenty-page document. -/
def fsTwenty : FS := [("doc.pdf", docN 20)]

/-- A concrete document with every descriptive field set, for witnesses. -/
def docMetaEx : PDFDoc :=
  ⟨[0], ⟨some "T", some "A", some "S", some ["K"], none, none, some 1, some 2⟩⟩

/-- A one-file filesystem holding `docMetaEx`. -/
def fsMetaEx : FS := [("m.pdf", docMetaEx)]

/-- A two-file filesystem holding a two-page and a three-page document. -/
def fsAB : FS := [("a.pdf", docN 2), ("b.pdf", docN 3)]

/-! ## Theorems -/

example : PDFTools.parsePageRange "3-9" 20 = [2, 3, 4, 5, 6, 7, 8] := by decide
example : PDFTools.parsePageRange "1,25" 20 = [0] := by decide
example : PDFTools.parsePageRange "" 10 = [] := by decide
example : PDFTools.parsePageRange "0" 20 = [] := by decide
example : PDFTools.parsePageRange "1, 3 , 5-7" 20 = [0, 2, 4, 5, 6] := by decide
example : PDFTools.parsePageRange "2,2,1" 20 = [1, 1, 0] := by decide

/-! ### Digit parsing lemmas -/

theorem parseDigitsAux_digits (cs : List Char) (acc : Nat)
    (h : ∀ c ∈ cs, c.isDigit) :
    parseDigitsAux digitVal 10 cs acc =
      cs.foldl (fun a c => a * 10 + (c.toNat - 48)) acc := by
  induction cs generalizing acc with
  | nil => rfl
  | cons c rest ih =>
    have hc : c.isDigit := h c (by simp)
    simp only [parseDigitsAux, digitVal, hc, if_true, List.foldl_cons]
    exact ih _ (fun d hd => h d (by simp [hd]))

theorem parseDigits_digits (cs : List Char) (h : isDigitSeq cs = true) :
    parseDigits digitVal 10 cs = some (valD cs) := by
  cases cs with
  | nil => simp [isDigitSeq] at h
  | cons c rest =>
    simp only [isDigitSeq, List.all_cons, Bool.and_eq_true, List.isEmpty_cons] at h
    have hc : c.isDigit := h.2.1
    simp only [parseDigits, digitVal, hc, if_true, valD, List.foldl_cons]
    rw [parseDigitsAux_digits rest (c.toNat - 48)
      (fun d hd => by
        have := h.2.2
        rw [List.all_eq_true] at this
        exact this d hd)]
    simp

theorem digit_not_special (c : Char) (h : c.isDigit) :
    c ≠ '+' ∧ c ≠ '-' ∧ c ≠ 'x' ∧ c ≠ 'X' := by
  refine ⟨?_, ?_, ?_, ?_⟩ <;> (intro he; subst he; simp [Char.isDigit] at h)

theorem parseUnsignedJS_digits (cs : List Char) (h : isDigitSeq cs = true) :
    parseUnsignedJS cs = parseDigits digitVal 10 cs := by
  unfold parseUnsignedJS
  split
  · rename_i rest
    exfalso
    have hx : 'x'.isDigit := by
      simp only [isDigitSeq, Bool.and_eq_true, List.all_eq_true] at h
      exact h.2 'x' (by simp)
    simp [Char.isDigit] at hx
  · rename_i rest
    exfalso
    have hx : 'X'.isDigit := by
      simp only [isDigitSeq, Bool.and_eq_true, List.all_eq_true] at h
      exact h.2 'X' (by simp)
    simp [Char.isDigit] at hx
  · rfl

theorem parseIntChars_digits (cs : List Char) (h : isDigitSeq cs = true) :
    parseIntChars cs = some ((valD cs : Nat) : Int) := by
  have hall : ∀ c ∈ cs, c.isDigit := by
    simp only [isDigitSeq, Bool.and_eq_true, List.all_eq_true] at h
    exact h.2
  unfold parseIntChars
  split
  · rename_i rest
    exfalso
    have := (digit_not_special '+' (hall '+' (by simp))).1
    exact this rfl
  · rename_i rest
    exfalso
    have := (digit_not_special '-' (hall '-' (by simp))).2.1
    exact this rfl
  · rw [parseUnsignedJS_digits cs h, parseDigits_digits cs h]
    rfl

/-! ### Bounds of the resolver output -/

theorem rangeArm_lt (s e : Option Int) (total : Nat) :
    ∀ x ∈ PDFTools.rangeArm s e total, x < total := by
  intro x hx
  unfold PDFTools.rangeArm at hx
  split at hx
  · rw [List.mem_filterMap] at hx
    obtain ⟨i, _, hfi⟩ := hx
    split at hfi
    · rename_i hg
      obtain ⟨h1, h2⟩ := hg
      injection hfi with hfi
      omega
    · exact absurd hfi (by simp)
  · simp at hx

theorem singleArm_lt (p : Option Int) (total : Nat) :
    ∀ x ∈ PDFTools.singleArm p total, x < total := by
  intro x hx
  unfold PDFTools.singleArm at hx
  split at hx
  · split at hx
    · rename_i p' hg
      obtain ⟨h1, h2⟩ := hg
      rw [List.mem_singleton] at hx
      omega
    · simp at hx
  · simp at hx

theorem partPages_lt (part : List Char) (total : Nat) :
    ∀ x ∈ PDFTools.partPages part total, x < total := by
  intro x hx
  unfold PDFTools.partPages at hx
  split at hx
  · exact rangeArm_lt _ _ total x hx
  · exact singleArm_lt _ total x hx

theorem parsePageRange_lt (range : String) (total : Nat) :
    ∀ x ∈ PDFTools.parsePageRange range total, x < total := by
  intro x hx
  unfold PDFTools.parsePageRange at hx
  rw [List.mem_flatMap] at hx
  obtain ⟨part, _, hp⟩ := hx
  exact partPages_lt part total x hp

/-- C9: the claim says resolving the empty expression fails with
InvalidPageRange; the code instead resolves it to the empty page sequence
without any error, and a downstream split succeeds, writing a zero-page
document. -/
theorem claim_C9_counterexample :
    PDFTools.parsePageRange "" 10 = [] ∧
      (PDFTools.splitPDF fsTwenty (some "doc.pdf") (some "") (some "out.pdf")
        7).2 = .ok ⟨true, "out.pdf", 0⟩ := by
  constructor
  · decide
  · rfl

/-- C9 (amended): for every totalPages, resolving the empty page-range
expression returns the empty page sequence; resolution does not fail. -/
theorem claim_C9 (totalPages : Nat) :
    PDFTools.parsePageRange "" totalPages = [] := rfl

/-- C2: the claim says an expression containing a page number below 1 or
above totalPages aborts resolution with InvalidPageRange and is never
silently dropped; the code instead drops the out-of-range values ("1,25"
with 20 pages resolves to the truncated [0], "0" and "25" resolve to []),
and a downstream split of an entirely out-of-range expression succeeds with
a zero-page output instead of failing. -/
theorem claim_C2_counterexample :
    PDFTools.parsePageRange "1,25" 20 = [0] ∧
      PDFTools.parsePageRange "0" 20 = [] ∧
      PDFTools.parsePageRange "25" 20 = [] ∧
      (PDFTools.splitPDF fsTwenty (some "doc.pdf") (some "0,25")
        (some "out.pdf") 7).2 = .ok ⟨true, "out.pdf", 0⟩ := by
  refine ⟨by decide, by decide, by decide, rfl⟩

/-- C2 (amended): out-of-range page numbers anywhere in the expression are
silently dropped rather than aborting resolution: the resolver is total,
every returned element is an in-range 0-based index (below totalPages), and
out-of-range tokens simply contribute nothing — "1,25" with totalPages 20
resolves to the truncated [0]. -/
theorem claim_C2 (range : String) (totalPages : Nat) :
    (∀ x ∈ PDFTools.parsePageRange range totalPages, x < totalPages) ∧
      PDFTools.parsePageRange "1,25" 20 = [0] := by
  exact ⟨parsePageRange_lt range totalPages, by decide⟩

/-- Witness for C2's amended theorem at a concrete input. -/
theorem claim_C2_witness : 0 < 20 ∧ PDFTools.parsePageRange "1,25" 20 = [0] :=
  ⟨(claim_C2 "1,25" 20).1 0 (by decide), (claim_C2 "1,25" 20).2⟩

/-! ### The resolver on valid expressions (C3) -/

theorem splitChar_ne_nil (sep : Char) (cs : List Char) : splitChar sep cs ≠ [] := by
  induction cs with
  | nil => simp [splitChar]
  | cons c rest ih =>
    unfold splitChar
    split
    · simp
    · split <;> simp

theorem filterMap_eq_map_of_some {α β : Type} (f : α → Option β) (g : α → β) :
    ∀ l : List α, (∀ a ∈ l, f a = some (g a)) → l.filterMap f = l.map g := by
  intro l
  induction l with
  | nil => intro _; rfl
  | cons a as ih =>
    intro h
    rw [List.filterMap_cons, h a (by simp), List.map_cons,
      ih (fun b hb => h b (by simp [hb]))]

theorem flatMap_congr_mem {α β : Type} (l : List α) (f g : α → List β)
    (h : ∀ a ∈ l, f a = g a) : l.flatMap f = l.flatMap g := by
  induction l with
  | nil => rfl
  | cons a as ih =>
    simp only [List.flatMap_cons]
    rw [h a (by simp), ih (fun b hb => h b (by simp [hb]))]

theorem filterMap_map_eq_map_of_some {α β γ : Type} (f : β → Option γ)
    (g : α → β) (h' : α → γ) (l : List α)
    (h : ∀ a ∈ l, f (g a) = some (h' a)) : (l.map g).filterMap f = l.map h' := by
  induction l with
  | nil => rfl
  | cons a as ih =>
    rw [List.map_cons, List.filterMap_cons, h a (by simp), List.map_cons,
      ih (fun b hb => h b (by simp [hb]))]

theorem rangeArm_of_bounds (x y total : Nat) (h1 : 1 ≤ x) (h2 : x ≤ y)
    (h3 : y ≤ total) :
    PDFTools.rangeArm (some (x : Int)) (some (y : Int)) total =
      (List.range (y + 1 - x)).map (fun k => x + k - 1) := by
  simp only [PDFTools.rangeArm, intRangeIncl]
  have hN : ((y : Int) + 1 - (x : Int)).toNat = y + 1 - x := by omega
  rw [hN]
  apply filterMap_map_eq_map_of_some
  intro k hk
  rw [List.mem_range] at hk
  have hN1 : 1 ≤ x + k := by omega
  have hN2 : x + k ≤ total := by omega
  have hg : 1 ≤ (x : Int) + (k : Int) ∧ (x : Int) + (k : Int) ≤ (total : Int) := by
    constructor
    · exact_mod_cast hN1
    · exact_mod_cast hN2
  rw [if_pos hg]
  congr 1
  have : (x : Int) + (k : Int) - 1 = ((x + k - 1 : Nat) : Int) := by
    omega
  rw [this, Int.toNat_natCast]

theorem partPages_of_valid (t : List Char) (total : Nat)
    (h : validTokenB t total = true) :
    PDFTools.partPages t total = (tokenPagesSpec t).map (fun v => v - 1) ∧
      PDFTools.partPages t total ≠ [] := by
  unfold validTokenB at h
  by_cases hc : t.contains '-' = true
  · rw [if_pos hc] at h
    unfold PDFTools.partPages tokenPagesSpec
    rw [if_pos hc, if_pos hc]
    split at h
    · rename_i a b heq
      rw [Bool.and_eq_true, Bool.and_eq_true, Bool.and_eq_true,
        Bool.and_eq_true] at h
      obtain ⟨⟨⟨⟨da, db⟩, h1⟩, h12⟩, h2⟩ := h
      rw [decide_eq_true_eq] at h1 h12 h2
      rw [heq]
      simp only [List.map_cons, List.map_nil, List.getD_cons_zero,
        List.getD_cons_succ]
      rw [parseIntChars_digits _ da, parseIntChars_digits _ db]
      constructor
      · rw [rangeArm_of_bounds _ _ _ h1 h12 h2, List.map_map]
        rfl
      · rw [rangeArm_of_bounds _ _ _ h1 h12 h2]
        simp only [ne_eq, List.map_eq_nil_iff, List.range_eq_nil]
        omega
    · exact absurd h (by simp)
  · rw [if_neg hc] at h
    unfold PDFTools.partPages tokenPagesSpec
    rw [if_neg hc, if_neg hc]
    rw [Bool.and_eq_true, Bool.and_eq_true] at h
    obtain ⟨⟨dt, h1⟩, h2⟩ := h
    rw [decide_eq_true_eq] at h1 h2
    rw [parseIntChars_digits _ dt]
    simp only [PDFTools.singleArm]
    have hg : 1 ≤ (valD (trimBoth t) : Int) ∧
        (valD (trimBoth t) : Int) ≤ (total : Int) := by
      constructor <;> omega
    rw [if_pos hg]
    constructor
    · simp only [List.map_cons, List.map_nil]
      congr 1
      omega
    · simp

/-- C3: the claim says resolving "3-9" against 20 pages yields the 1-based
sequence [3,4,5,6,7,8,9]; the code returns 0-based indices, so it yields
[2,3,4,5,6,7,8] instead. -/
theorem claim_C3_counterexample :
    PDFTools.parsePageRange "3-9" 20 = [2, 3, 4, 5, 6, 7, 8] ∧
      PDFTools.parsePageRange "3-9" 20 ≠ [3, 4, 5, 6, 7, 8, 9] := by
  decide

/-- C3 (amended): for every valid page-range expression and totalPages, the
resolver returns a non-empty sequence of 0-based page indices, each below
totalPages, equal token-by-token (left-to-right, duplicates retained, range
tokens expanded in ascending order) to the spec's 1-based page sequence
shifted down by one; in particular "3-9" with totalPages 20 yields
[2,3,4,5,6,7,8]. -/
theorem claim_C3 (range : String) (totalPages : Nat)
    (h : validExprB range totalPages = true) :
    PDFTools.parsePageRange range totalPages ≠ [] ∧
      (∀ x ∈ PDFTools.parsePageRange range totalPages, x < totalPages) ∧
      PDFTools.parsePageRange range totalPages =
        (splitChar ',' range.data).flatMap
          (fun t => (tokenPagesSpec t).map (fun v => v - 1)) := by
  have hall : ∀ t ∈ splitChar ',' range.data, validTokenB t totalPages = true := by
    simpa [validExprB, List.all_eq_true] using h
  refine ⟨?_, parsePageRange_lt range totalPages, ?_⟩
  · obtain ⟨t0, ts, hsp⟩ :=
      List.exists_cons_of_ne_nil (splitChar_ne_nil ',' range.data)
    unfold PDFTools.parsePageRange
    rw [hsp, List.flatMap_cons]
    have hne := (partPages_of_valid t0 totalPages (hall t0 (by rw [hsp]; simp))).2
    intro hcontra
    exact hne (List.append_eq_nil.mp hcontra).1
  · unfold PDFTools.parsePageRange
    exact flatMap_congr_mem _ _ _
      (fun t ht => (partPages_of_valid t totalPages (hall t ht)).1)

/-- Witness for C3's amended theorem at the concrete expression "3-9". -/
theorem claim_C3_witness :
    PDFTools.parsePageRange "3-9" 20 ≠ [] ∧
      (∀ x ∈ PDFTools.parsePageRange "3-9" 20, x < 20) ∧
      PDFTools.parsePageRange "3-9" 20 =
        (splitChar ',' "3-9".data).flatMap
          (fun t => (tokenPagesSpec t).map (fun v => v - 1)) :=
  claim_C3 "3-9" 20 (by decide)

/-! ### Per-page extraction (C1) -/

theorem copyPages_singleton_ok (doc : PDFDoc) (i : Nat)
    (hi : i < doc.pages.length) :
    copyPages doc [i] = .ok ([i].filterMap (fun j => doc.pages.get? j)) := by
  unfold copyPages
  rw [if_pos]
  simp [hi]

theorem firstInvalidPage_cons_valid (n : Int) (rest : List Int) (total : Nat)
    (h : isValidPage total n = true) :
    firstInvalidPage (n :: rest) total = firstInvalidPage rest total := by
  simp [firstInvalidPage, List.find?_cons, h]

theorem firstInvalidPage_cons_invalid (n : Int) (rest : List Int) (total : Nat)
    (h : ¬ isValidPage total n = true) :
    firstInvalidPage (n :: rest) total = some n := by
  simp [firstInvalidPage, List.find?_cons, h]

theorem extractLoop_cons_valid (fs : FS) (doc : PDFDoc) (n : Int)
    (rest : List Int) (dir pfx : String)
    (h : isValidPage doc.pages.length n = true) :
    PDFTools.extractLoop fs doc (n :: rest) dir pfx =
      ((PDFTools.extractLoop (fsWrite fs (extractFileName dir pfx n)
          (extractedDoc doc n)) doc rest dir pfx).1,
       (PDFTools.extractLoop (fsWrite fs (extractFileName dir pfx n)
          (extractedDoc doc n)) doc rest dir pfx).2.map
         (fun files => extractFileName dir pfx n :: files)) := by
  rw [isValidPage, Bool.and_eq_true, decide_eq_true_eq, decide_eq_true_eq] at h
  have hguard : ¬(n < 1 ∨ (doc.pages.length : Int) < n) := by omega
  have hidx : (n - 1).toNat < doc.pages.length := by omega
  simp only [PDFTools.extractLoop, hguard, if_false,
    copyPages_singleton_ok doc _ hidx]
  rfl

theorem extractLoop_cons_invalid (fs : FS) (doc : PDFDoc) (n : Int)
    (rest : List Int) (dir pfx : String)
    (h : ¬ isValidPage doc.pages.length n = true) :
    PDFTools.extractLoop fs doc (n :: rest) dir pfx =
      (fs, .error ("Invalid page number: " ++ toString n)) := by
  rw [isValidPage, Bool.and_eq_true] at h
  have hguard : n < 1 ∨ (doc.pages.length : Int) < n := by
    rcases Decidable.not_and_iff_or_not.mp h with h1 | h2
    · rw [decide_eq_true_eq] at h1; omega
    · rw [decide_eq_true_eq] at h2; omega
  simp only [PDFTools.extractLoop, hguard, if_true]

theorem extractLoop_all_valid (doc : PDFDoc) (dir pfx : String) :
    ∀ (nums : List Int) (fs : FS),
      firstInvalidPage nums doc.pages.length = none →
      PDFTools.extractLoop fs doc nums dir pfx =
        (extractWrites fs doc dir pfx nums,
         .ok (nums.map (extractFileName dir pfx))) := by
  intro nums
  induction nums with
  | nil => intro fs _; rfl
  | cons n rest ih =>
    intro fs hv
    have hval : isValidPage doc.pages.length n = true := by
      by_contra hbad
      rw [firstInvalidPage_cons_invalid n rest _ hbad] at hv
      exact Option.noConfusion hv
    rw [firstInvalidPage_cons_valid n rest _ hval] at hv
    rw [extractLoop_cons_valid fs doc n rest dir pfx hval, ih _ hv]
    rfl

theorem extractLoop_first_invalid (doc : PDFDoc) (dir pfx : String) :
    ∀ (nums : List Int) (fs : FS) (m : Int),
      firstInvalidPage nums doc.pages.length = some m →
      (PDFTools.extractLoop fs doc nums dir pfx).2 =
          .error ("Invalid page number: " ++ toString m) ∧
        (PDFTools.extractLoop fs doc nums dir pfx).1 =
          extractWrites fs doc dir pfx
            (nums.takeWhile (isValidPage doc.pages.length)) := by
  intro nums
  induction nums with
  | nil =>
    intro fs m hv
    exact absurd hv (by simp [firstInvalidPage])
  | cons n rest ih =>
    intro fs m hv
    by_cases hval : isValidPage doc.pages.length n = true
    · rw [firstInvalidPage_cons_valid n rest _ hval] at hv
      have ihr := ih (fsWrite fs (extractFileName dir pfx n)
        (extractedDoc doc n)) m hv
      rw [extractLoop_cons_valid fs doc n rest dir pfx hval,
        List.takeWhile_cons_of_pos hval]
      refine ⟨?_, ?_⟩
      · show ((PDFTools.extractLoop (fsWrite fs (extractFileName dir pfx n)
          (extractedDoc doc n)) doc rest dir pfx).2.map
            (fun files => extractFileName dir pfx n :: files)) =
          .error ("Invalid page number: " ++ toString m)
        rw [ihr.1]
        rfl
      · show (PDFTools.extractLoop (fsWrite fs (extractFileName dir pfx n)
          (extractedDoc doc n)) doc rest dir pfx).1 = _
        rw [ihr.2]
        simp only [extractWrites, List.foldl_cons]
    · rw [firstInvalidPage_cons_invalid n rest _ hval] at hv
      injection hv with hveq
      subst hveq
      rw [extractLoop_cons_invalid fs doc n rest dir pfx hval,
        List.takeWhile_cons_of_neg (by simp [hval])]
      exact ⟨rfl, rfl⟩

/-- C1: the claim says extractPages with [1, 999] on a 10-page document
creates zero files; the code writes the file for page 1 before it reaches
999, so the error is raised with one output file already persisted. -/
theorem claim_C1_counterexample :
    (PDFTools.extractPages fsTen (some "doc.pdf") (some [1, 999]) (some "out")
        none).2 = .error "Invalid page number: 999" ∧
      fsLookup (PDFTools.extractPages fsTen (some "doc.pdf") (some [1, 999])
        (some "out") none).1 "out/page_1.pdf" =
        some ⟨[0], emptyMeta⟩ := by
  constructor <;> rfl

/-- C1 (amended): extractPages validates each requested page number in input
order as it goes: the first out-of-range number aborts the operation with an
error naming that value, but the single-page files already written for the
valid numbers preceding it remain on disk — the operation is not atomic.
When every requested number is valid, one file per number is written and all
created paths are returned in input order. -/
theorem claim_C1 (fs : FS) (p : String) (doc : PDFDoc) (nums : List Int)
    (dirO pfxO : Option String) (h : fsLookup fs p = some doc) :
    (firstInvalidPage nums doc.pages.length = none →
      PDFTools.extractPages fs (some p) (some nums) dirO pfxO =
        (extractWrites fs doc (jsShow dirO) (pfxO.getD "page") nums,
         .ok ⟨true, nums.map (extractFileName (jsShow dirO) (pfxO.getD "page"))⟩)) ∧
    (∀ m, firstInvalidPage nums doc.pages.length = some m →
      (PDFTools.extractPages fs (some p) (some nums) dirO pfxO).2 =
          .error ("Invalid page number: " ++ toString m) ∧
        (PDFTools.extractPages fs (some p) (some nums) dirO pfxO).1 =
          extractWrites fs doc (jsShow dirO) (pfxO.getD "page")
            (nums.takeWhile (isValidPage doc.pages.length))) := by
  have hep : PDFTools.extractPages fs (some p) (some nums) dirO pfxO =
      ((PDFTools.extractLoop fs doc nums (jsShow dirO) (pfxO.getD "page")).1,
       (PDFTools.extractLoop fs doc nums (jsShow dirO) (pfxO.getD "page")).2.map
         (fun files => ⟨true, files⟩)) := by
    simp only [PDFTools.extractPages, fsLookupO, h]
  constructor
  · intro hv
    rw [hep, extractLoop_all_valid doc _ _ nums fs hv]
    rfl
  · intro m hv
    have hl := extractLoop_first_invalid doc (jsShow dirO) (pfxO.getD "page")
      nums fs m hv
    rw [hep]
    exact ⟨by rw [hl.1]; rfl, hl.2⟩

/-! ### Merge failure policy (C7) -/

theorem append_ne_emptyMsg (p : String) :
    "File not found: " ++ p ≠ "No PDF files provided for merging" := by
  intro h
  have h2 := congrArg (fun s => s.data.head?) h
  have h3 : (some 'F' : Option Char) = some 'N' := h2
  exact absurd h3 (by decide)

theorem pathTypeErr_ne_emptyMsg :
    pathTypeErrMsg ≠ "No PDF files provided for merging" := by
  decide

theorem mergeLoad_first_missing (fs : FS) :
    ∀ ps : List String, (∃ p ∈ ps, fsLookup fs p = none) →
      ∃ p ∈ ps, fsLookup fs p = none ∧
        PDFTools.mergeLoad fs ps = .error ("File not found: " ++ p) := by
  intro ps
  induction ps with
  | nil => rintro ⟨p, hp, _⟩; exact absurd hp (by simp)
  | cons q rest ih =>
    rintro ⟨p, hp, hnone⟩
    cases hq : fsLookup fs q with
    | none =>
      refine ⟨q, by simp, hq, ?_⟩
      simp only [PDFTools.mergeLoad, hq]
    | some doc =>
      have hne : p ≠ q := fun he => by rw [he, hq] at hnone; exact Option.noConfusion hnone
      have hpr : p ∈ rest := by
        rcases List.mem_cons.mp hp with h | h
        · exact absurd h hne
        · exact h
      obtain ⟨r, hr, hrn, hre⟩ := ih ⟨p, hpr, hnone⟩
      refine ⟨r, by simp [hr], hrn, ?_⟩
      simp only [PDFTools.mergeLoad, hq, hre]
      rfl

theorem mergeLoad_error_form (fs : FS) :
    ∀ (ps : List String) (e : String), PDFTools.mergeLoad fs ps = .error e →
      ∃ p ∈ ps, e = "File not found: " ++ p := by
  intro ps
  induction ps with
  | nil => intro e he; exact absurd he (by simp [PDFTools.mergeLoad])
  | cons q rest ih =>
    intro e he
    cases hq : fsLookup fs q with
    | none =>
      simp only [PDFTools.mergeLoad, hq] at he
      injection he with he
      exact ⟨q, by simp, he.symm⟩
    | some doc =>
      simp only [PDFTools.mergeLoad, hq] at he
      cases hr : PDFTools.mergeLoad fs rest with
      | error e' =>
        rw [hr] at he
        injection he with he
        obtain ⟨p, hp, hpe⟩ := ih e' hr
        exact ⟨p, by simp [hp], by rw [← he, hpe]⟩
      | ok pgs =>
        rw [hr] at he
        exact absurd he (by simp [Except.map])

/-- C7: merge fails with the EmptySourceSet message exactly on the empty
source list, fails with a SourceNotFound message naming a missing path when
some listed path is unreadable, and in every failure case the filesystem is
unchanged — no output is written before the error. -/
theorem claim_C7 (fs : FS) (ps : List String) (out : Option String) (now : Nat) :
    ((PDFTools.mergePDFs fs (some ps) out now).2 =
        .error "No PDF files provided for merging" ↔ ps = []) ∧
      ((∃ p ∈ ps, fsLookup fs p = none) →
        ∃ p ∈ ps, fsLookup fs p = none ∧
          PDFTools.mergePDFs fs (some ps) out now =
            (fs, .error ("File not found: " ++ p))) ∧
      (∀ e, (PDFTools.mergePDFs fs (some ps) out now).2 = .error e →
        (PDFTools.mergePDFs fs (some ps) out now).1 = fs) := by
  by_cases hlen : ps.length = 0
  · have hnil : ps = [] := List.length_eq_zero.mp hlen
    subst hnil
    refine ⟨by simp [PDFTools.mergePDFs], ?_, ?_⟩
    · rintro ⟨p, hp, _⟩; exact absurd hp (by simp)
    · intro e _; rfl
  · have hmm : PDFTools.mergePDFs fs (some ps) out now =
        (if ps.length = 0 then (fs, .error "No PDF files provided for merging")
         else match PDFTools.mergeLoad fs ps with
          | .error e => (fs, .error e)
          | .ok pgs =>
            match out with
            | none => (fs, .error pathTypeErrMsg)
            | some op =>
              (fsWrite fs op ⟨pgs, PDFTools.mergeMeta now⟩,
               .ok ⟨true, op, pgs.length⟩)) := rfl
    rw [hmm, if_neg hlen]
    refine ⟨?_, ?_, ?_⟩
    · constructor
      · intro he
        exfalso
        cases hr : PDFTools.mergeLoad fs ps with
        | error e' =>
          rw [hr] at he
          simp only at he
          injection he with he
          obtain ⟨p, _, hpe⟩ := mergeLoad_error_form fs ps e' hr
          exact append_ne_emptyMsg p (by rw [← hpe, he])
        | ok pgs =>
          rw [hr] at he
          cases out with
          | none =>
            simp only at he
            injection he with he
            exact pathTypeErr_ne_emptyMsg he
          | some op => simp at he
      · intro he
        exact absurd (List.length_eq_zero.mpr he) hlen
    · intro hex
      obtain ⟨p, hp, hnone, hre⟩ := mergeLoad_first_missing fs ps hex
      exact ⟨p, hp, hnone, by rw [hre]⟩
    · intro e he
      cases hr : PDFTools.mergeLoad fs ps with
      | error e' => rfl
      | ok pgs =>
        cases out with
        | none => rfl
        | some op =>
          rw [hr] at he
          simp at he

/-- Witness for C7 at a concrete missing source on the empty filesystem. -/
theorem claim_C7_witness :
    ∃ p ∈ ["missing.pdf"], fsLookup ([] : FS) p = none ∧
      PDFTools.mergePDFs ([] : FS) (some ["missing.pdf"]) (some "out.pdf") 0 =
        ([], .error ("File not found: " ++ p)) :=
  (claim_C7 [] ["missing.pdf"] (some "out.pdf") 0).2.1
    ⟨"missing.pdf", by simp, rfl⟩

/-! ### Metadata update frame properties (C8, C10) -/

theorem applyUpdates_title_frame (m : PDFMeta) (u : PDFTools.MetaUpdates)
    (now : Nat) (ht : truthyStr u.title = false) :
    (PDFTools.applyUpdates m u now).title = m.title := by
  unfold PDFTools.applyUpdates
  rw [ht]
  cases truthyStr u.author <;> cases truthyStr u.subject <;>
    cases truthyStr u.keywords <;> rfl

theorem applyUpdates_author_frame (m : PDFMeta) (u : PDFTools.MetaUpdates)
    (now : Nat) (ha : truthyStr u.author = false) :
    (PDFTools.applyUpdates m u now).author = m.author := by
  unfold PDFTools.applyUpdates
  rw [ha]
  cases truthyStr u.title <;> cases truthyStr u.subject <;>
    cases truthyStr u.keywords <;> rfl

theorem applyUpdates_subject_frame (m : PDFMeta) (u : PDFTools.MetaUpdates)
    (now : Nat) (hs : truthyStr u.subject = false) :
    (PDFTools.applyUpdates m u now).subject = m.subject := by
  unfold PDFTools.applyUpdates
  rw [hs]
  cases truthyStr u.title <;> cases truthyStr u.author <;>
    cases truthyStr u.keywords <;> rfl

theorem applyUpdates_keywords_frame (m : PDFMeta) (u : PDFTools.MetaUpdates)
    (now : Nat) (hk : truthyStr u.keywords = false) :
    (PDFTools.applyUpdates m u now).keywords = m.keywords := by
  unfold PDFTools.applyUpdates
  rw [hk]
  cases truthyStr u.title <;> cases truthyStr u.author <;>
    cases truthyStr u.subject <;> rfl

theorem updatePDFMetadata_eq (fs : FS) (p : String) (doc : PDFDoc)
    (u : PDFTools.MetaUpdates) (out : Option String) (now : Nat)
    (h : fsLookup fs p = some doc) :
    PDFTools.updatePDFMetadata fs (some p) (some u) out now =
      (fsWrite fs (jsOrElse out p)
        ⟨doc.pages, PDFTools.applyUpdates doc.meta u now⟩,
       .ok ⟨true, jsOrElse out p⟩) := by
  simp only [PDFTools.updatePDFMetadata, fsLookupO, h]
  rfl

/-- C8: a metadata write only overwrites the descriptive fields present in
the updates record; absent fields keep their prior values, the page sequence
is untouched, and a write with the empty updates record changes nothing but
the modification timestamp. -/
theorem claim_C8 (fs : FS) (p : String) (doc : PDFDoc)
    (u : PDFTools.MetaUpdates) (out : Option String) (now : Nat)
    (h : fsLookup fs p = some doc) :
    PDFTools.updatePDFMetadata fs (some p) (some u) out now =
        (fsWrite fs (jsOrElse out p)
          ⟨doc.pages, PDFTools.applyUpdates doc.meta u now⟩,
         .ok ⟨true, jsOrElse out p⟩) ∧
      (u.title = none →
        (PDFTools.applyUpdates doc.meta u now).title = doc.meta.title) ∧
      (u.author = none →
        (PDFTools.applyUpdates doc.meta u now).author = doc.meta.author) ∧
      (u.subject = none →
        (PDFTools.applyUpdates doc.meta u now).subject = doc.meta.subject) ∧
      (u.keywords = none →
        (PDFTools.applyUpdates doc.meta u now).keywords = doc.meta.keywords) ∧
      (u = PDFTools.emptyUpdates →
        PDFTools.applyUpdates doc.meta u now =
          { doc.meta with modificationDate := some now }) := by
  refine ⟨updatePDFMetadata_eq fs p doc u out now h, ?_, ?_, ?_, ?_, ?_⟩
  · intro ht; exact applyUpdates_title_frame _ _ _ (by rw [ht]; rfl)
  · intro ha; exact applyUpdates_author_frame _ _ _ (by rw [ha]; rfl)
  · intro hs; exact applyUpdates_subject_frame _ _ _ (by rw [hs]; rfl)
  · intro hk; exact applyUpdates_keywords_frame _ _ _ (by rw [hk]; rfl)
  · intro he; subst he; rfl

/-- Witness for C8 at a concrete document and the empty updates record. -/
theorem claim_C8_witness :
    PDFTools.applyUpdates docMetaEx.meta PDFTools.emptyUpdates 42 =
      { docMetaEx.meta with modificationDate := some 42 } :=
  (claim_C8 fsMetaEx "m.pdf" docMetaEx PDFTools.emptyUpdates none 42
    rfl).2.2.2.2.2 rfl

/-- C10: a descriptive field that is present in the updates record but equal
to the empty string is treated as absent (JS truthiness): the prior value is
kept, so this operation can never clear a field to the empty string. -/
theorem claim_C10 (fs : FS) (p : String) (doc : PDFDoc)
    (u : PDFTools.MetaUpdates) (out : Option String) (now : Nat)
    (h : fsLookup fs p = some doc) :
    PDFTools.updatePDFMetadata fs (some p) (some u) out now =
        (fsWrite fs (jsOrElse out p)
          ⟨doc.pages, PDFTools.applyUpdates doc.meta u now⟩,
         .ok ⟨true, jsOrElse out p⟩) ∧
      (u.title = some "" →
        (PDFTools.applyUpdates doc.meta u now).title = doc.meta.title) ∧
      (u.author = some "" →
        (PDFTools.applyUpdates doc.meta u now).author = doc.meta.author) ∧
      (u.subject = some "" →
        (PDFTools.applyUpdates doc.meta u now).subject = doc.meta.subject) ∧
      (u.keywords = some "" →
        (PDFTools.applyUpdates doc.meta u now).keywords = doc.meta.keywords) := by
  refine ⟨updatePDFMetadata_eq fs p doc u out now h, ?_, ?_, ?_, ?_⟩
  · intro ht; exact applyUpdates_title_frame _ _ _ (by rw [ht]; rfl)
  · intro ha; exact applyUpdates_author_frame _ _ _ (by rw [ha]; rfl)
  · intro hs; exact applyUpdates_subject_frame _ _ _ (by rw [hs]; rfl)
  · intro hk; exact applyUpdates_keywords_frame _ _ _ (by rw [hk]; rfl)

/-- Witness for C10: updating with title, author, subject and keywords all
present but empty keeps the prior title. -/
theorem claim_C10_witness :
    (PDFTools.applyUpdates docMetaEx.meta
      ⟨some "", some "", some "", some ""⟩ 42).title = docMetaEx.meta.title :=
  (claim_C10 fsMetaEx "m.pdf" docMetaEx ⟨some "", some "", some "", some ""⟩
    none 42 rfl).2.1 rfl

/-! ### Decimal rendering round-trips through the parser (towards C6)

The split expression of the round-trip claim is the interpolated string
`"1-" ++ toString (pageCount A)`; these lemmas show the code's own
`parseInt` model recovers the page count from it. -/

theorem foldl_digits_shift (cs : List Char) :
    ∀ a : Nat, cs.foldl (fun x c => x * 10 + (c.toNat - 48)) a =
      a * 10 ^ cs.length + valD cs := by
  induction cs with
  | nil => intro a; simp [valD]
  | cons c rest ih =>
    intro a
    have hv : valD (c :: rest) = (c.toNat - 48) * 10 ^ rest.length + valD rest := by
      rw [valD, List.foldl_cons]
      rw [ih (0 * 10 + (c.toNat - 48))]
      simp
    rw [List.foldl_cons, ih (a * 10 + (c.toNat - 48)), hv, List.length_cons]
    ring

theorem digitChar_isDigit (d : Nat) (h : d < 10) :
    (Nat.digitChar d).isDigit = true := by
  interval_cases d <;> decide

theorem digitChar_val (d : Nat) (h : d < 10) :
    (Nat.digitChar d).toNat - 48 = d := by
  interval_cases d <;> decide

theorem toDigitsCore_digits :
    ∀ (fuel n : Nat) (acc : List Char), n < fuel →
      (∀ c ∈ acc, c.isDigit) →
      ∀ c ∈ Nat.toDigitsCore 10 fuel n acc, c.isDigit := by
  intro fuel
  induction fuel with
  | zero => intro n acc h; omega
  | succ fuel ih =>
    intro n acc hlt hacc
    rw [Nat.toDigitsCore]
    split
    · intro c hc
      rcases List.mem_cons.mp hc with h | h
      · subst h; exact digitChar_isDigit _ (Nat.mod_lt _ (by norm_num))
      · exact hacc c h
    · rename_i hne
      apply ih
      · have hpos : 0 < n := by
          by_contra hz
          have : n = 0 := by omega
          subst this
          exact hne rfl
        have := Nat.div_lt_self hpos (by norm_num : 1 < 10)
        omega
      · intro c hc
        rcases List.mem_cons.mp hc with h | h
        · subst h; exact digitChar_isDigit _ (Nat.mod_lt _ (by norm_num))
        · exact hacc c h

theorem toDigitsCore_val :
    ∀ (fuel n : Nat) (acc : List Char), n < fuel →
      valD (Nat.toDigitsCore 10 fuel n acc) =
        n * 10 ^ acc.length + valD acc := by
  intro fuel
  induction fuel with
  | zero => intro n acc h; omega
  | succ fuel ih =>
    intro n acc hlt
    rw [Nat.toDigitsCore]
    split
    · rename_i hz
      have hn : n < 10 := by
        have := Nat.div_add_mod n 10
        omega
      have hval : valD (Nat.digitChar (n % 10) :: acc) =
          (n % 10) * 10 ^ acc.length + valD acc := by
        rw [valD, List.foldl_cons, foldl_digits_shift,
          digitChar_val _ (Nat.mod_lt _ (by norm_num))]
        simp [valD]
      rw [hval, Nat.mod_eq_of_lt hn]
    · rename_i hne
      have hpos : 0 < n := by
        by_contra hz
        have : n = 0 := by omega
        subst this
        exact hne rfl
      have hlt' : n / 10 < fuel := by
        have := Nat.div_lt_self hpos (by norm_num : 1 < 10)
        omega
      rw [ih (n / 10) (Nat.digitChar (n % 10) :: acc) hlt']
      have hval : valD (Nat.digitChar (n % 10) :: acc) =
          (n % 10) * 10 ^ acc.length + valD acc := by
        rw [valD, List.foldl_cons, foldl_digits_shift,
          digitChar_val _ (Nat.mod_lt _ (by norm_num))]
        simp [valD]
      rw [hval, List.length_cons]
      have h10 := Nat.div_add_mod n 10
      calc n / 10 * 10 ^ (acc.length + 1) +
            (n % 10 * 10 ^ acc.length + valD acc)
          = (10 * (n / 10) + n % 10) * 10 ^ acc.length + valD acc := by ring
        _ = n * 10 ^ acc.length + valD acc := by rw [h10]

theorem toDigitsCore_length :
    ∀ (fuel n : Nat) (acc : List Char), n < fuel →
      acc.length < (Nat.toDigitsCore 10 fuel n acc).length := by
  intro fuel
  induction fuel with
  | zero => intro n acc h; omega
  | succ fuel ih =>
    intro n acc hlt
    rw [Nat.toDigitsCore]
    split
    · simp
    · rename_i hne
      have hpos : 0 < n := by
        by_contra hz
        have : n = 0 := by omega
        subst this
        exact hne rfl
      have hlt' : n / 10 < fuel := by
        have := Nat.div_lt_self hpos (by norm_num : 1 < 10)
        omega
      have := ih (n / 10) (Nat.digitChar (n % 10) :: acc) hlt'
      simp only [List.length_cons] at this
      omega

theorem toDigits_ne_nil (n : Nat) : Nat.toDigits 10 n ≠ [] := by
  have := toDigitsCore_length (n + 1) n [] (by omega)
  intro h
  rw [Nat.toDigits] at h
  rw [h] at this
  simp at this

theorem toDigits_isDigitSeq (n : Nat) :
    isDigitSeq (Nat.toDigits 10 n) = true := by
  rw [isDigitSeq, Bool.and_eq_true]
  constructor
  · cases h : Nat.toDigits 10 n with
    | nil => exact absurd h (toDigits_ne_nil n)
    | cons c cs => rfl
  · rw [List.all_eq_true]
    exact toDigitsCore_digits (n + 1) n [] (by omega) (by simp)

theorem valD_toDigits (n : Nat) : valD (Nat.toDigits 10 n) = n := by
  have := toDigitsCore_val (n + 1) n [] (by omega)
  rw [Nat.toDigits]
  rw [this]
  simp [valD]

theorem parseIntChars_toDigits (n : Nat) :
    parseIntChars (Nat.toDigits 10 n) = some ((n : Nat) : Int) := by
  rw [parseIntChars_digits _ (toDigits_isDigitSeq n), valD_toDigits]

/-! ### The round-trip split expression resolves to the first document's
page indices (C6) -/

theorem splitChar_cons_ne (sep c : Char) (cs : List Char) (h : ¬ c = sep) :
    splitChar sep (c :: cs) =
      match splitChar sep cs with
      | [] => [[c]]
      | h :: t => (c :: h) :: t := by
  simp only [splitChar, if_neg h]

theorem splitChar_cons_eq (sep : Char) (cs : List Char) :
    splitChar sep (sep :: cs) = [] :: splitChar sep cs := by
  simp [splitChar]

theorem splitChar_noSep (sep : Char) :
    ∀ cs : List Char, (∀ c ∈ cs, c ≠ sep) → splitChar sep cs = [cs] := by
  intro cs
  induction cs with
  | nil => intro _; rfl
  | cons c rest ih =>
    intro h
    rw [splitChar_cons_ne sep c rest (h c (by simp)),
      ih (fun d hd => h d (by simp [hd]))]

theorem dropWhile_no_ws (cs : List Char) (h : ∀ c ∈ cs, isJsWhitespace c = false) :
    cs.dropWhile isJsWhitespace = cs := by
  cases cs with
  | nil => rfl
  | cons c rest => rw [List.dropWhile_cons_of_neg (by simp [h c (by simp)])]

theorem trimBoth_no_ws (cs : List Char) (h : ∀ c ∈ cs, isJsWhitespace c = false) :
    trimBoth cs = cs := by
  rw [trimBoth, dropWhile_no_ws cs h,
    dropWhile_no_ws cs.reverse (fun c hc => h c (List.mem_reverse.mp hc)),
    List.reverse_reverse]

theorem digit_not_ws (c : Char) (h : c.isDigit = true) :
    isJsWhitespace c = false := by
  rw [Char.isDigit, Bool.and_eq_true] at h
  obtain ⟨h1, h2⟩ := h
  rw [decide_eq_true_eq] at h1 h2
  simp only [isJsWhitespace, Bool.or_eq_false_iff, decide_eq_false_iff_not]
  refine ⟨⟨⟨?_, ?_⟩, ?_⟩, ?_⟩ <;> intro he <;> subst he <;>
    exact absurd h1 (by decide)

theorem digit_ne_char (c d : Char) (h : c.isDigit = true)
    (hd : d.isDigit = false) : c ≠ d := by
  intro he
  subst he
  rw [h] at hd
  exact Bool.noConfusion hd

theorem range_map_getD {α : Type} (l : List α) (d : α) :
    (List.range l.length).map (fun i => l.getD i d) = l := by
  induction l with
  | nil => rfl
  | cons a rest ih =>
    rw [List.length_cons, List.range_succ_eq_map, List.map_cons, List.map_map]
    exact congrArg₂ List.cons rfl ih

theorem copyPages_prefix (l tail : List Page) (m : PDFMeta) :
    copyPages ⟨l ++ tail, m⟩ (List.range l.length) = .ok l := by
  unfold copyPages
  rw [if_pos]
  · congr 1
    apply Eq.trans (filterMap_eq_map_of_some _ (fun i => l.getD i 0) _ ?_)
    · exact range_map_getD l 0
    · intro i hi
      rw [List.mem_range] at hi
      show (l ++ tail).get? i = some (l.getD i 0)
      rw [List.get?_append hi, List.get?_eq_get hi]
      congr 1
      exact (List.getD_eq_get l 0 hi).symm
  · rw [List.all_eq_true]
    intro i hi
    rw [List.mem_range] at hi
    show decide (i < (⟨l ++ tail, m⟩ : PDFDoc).pages.length) = true
    rw [decide_eq_true_eq]
    simp only [List.length_append]
    omega

theorem parsePageRange_one_to (n m : Nat) :
    PDFTools.parsePageRange ("1-" ++ toString n) (n + m) = List.range n := by
  have hds : ("1-" ++ toString n).data = '1' :: '-' :: Nat.toDigits 10 n := rfl
  have hdig : ∀ c ∈ Nat.toDigits 10 n, c.isDigit :=
    toDigitsCore_digits (n + 1) n [] (by omega) (by simp)
  have hnocomma : ∀ c ∈ '1' :: '-' :: Nat.toDigits 10 n, c ≠ ',' := by
    intro c hc
    rcases List.mem_cons.mp hc with h | h
    · subst h; decide
    · rcases List.mem_cons.mp h with h | h
      · subst h; decide
      · exact digit_ne_char c ',' (hdig c h) (by decide)
  have hnodash : ∀ c ∈ Nat.toDigits 10 n, c ≠ '-' :=
    fun c hc => digit_ne_char c '-' (hdig c hc) (by decide)
  unfold PDFTools.parsePageRange
  rw [hds, splitChar_noSep ',' _ hnocomma]
  rw [show (['1' :: '-' :: Nat.toDigits 10 n].flatMap
      (fun part => PDFTools.partPages part (n + m))) =
    PDFTools.partPages ('1' :: '-' :: Nat.toDigits 10 n) (n + m) ++ [] from rfl]
  rw [List.append_nil]
  unfold PDFTools.partPages
  have hcont : ('1' :: '-' :: Nat.toDigits 10 n).contains '-' = true := by
    simp [List.contains_cons]
  rw [if_pos hcont]
  have hsp : splitChar '-' ('1' :: '-' :: Nat.toDigits 10 n) =
      [['1'], Nat.toDigits 10 n] := by
    rw [splitChar_cons_ne '-' '1' _ (by decide), splitChar_cons_eq,
      splitChar_noSep '-' _ hnodash]
  rw [hsp]
  have htrim : trimBoth (Nat.toDigits 10 n) = Nat.toDigits 10 n :=
    trimBoth_no_ws _ (fun c hc => digit_not_ws c (hdig c hc))
  simp only [List.map_cons, List.map_nil, List.getD_cons_zero,
    List.getD_cons_succ]
  rw [htrim, parseIntChars_toDigits n]
  rw [show parseIntChars (trimBoth ['1']) = some ((1 : Nat) : Int) from rfl]
  by_cases hn : n = 0
  · subst hn
    rfl
  · rw [rangeArm_of_bounds 1 n (n + m) (le_refl 1) (by omega) (by omega)]
    have : n + 1 - 1 = n := by omega
    rw [this]
    calc (List.range n).map (fun k => 1 + k - 1)
        = (List.range n).map (fun k => k) := by
          apply List.map_congr_left
          intro k _
          omega
      _ = List.range n := List.map_id _

/-! ### Dispatcher envelope and argument handling (C4, C5) -/

/-- C4: every tool call yields a well-formed envelope — either a success
payload with `isError` false or a failure payload with `isError` true; no
exception escapes, because every engine failure is wrapped by the catch
block.  A call naming an unknown operation (with an argument record present)
yields the failure envelope naming the unknown tool, with no engine method
invoked and the filesystem untouched. -/
theorem claim_C4 (cdc : Codec) (fs : FS) (req : ToolRequest) (now : Nat) :
    ((∃ o, (PDFUtilitiesServer.callTool cdc fs req now).2.1 =
        ⟨.ok o, false⟩) ∨
      (∃ e, (PDFUtilitiesServer.callTool cdc fs req now).2.1 =
        ⟨.fail e, true⟩)) ∧
    (req.name ∉ knownOps → ∀ args, req.arguments = some args →
      PDFUtilitiesServer.callTool cdc fs req now =
        (fs, ⟨.fail ("Unknown tool: " ++ req.name), true⟩, [])) := by
  constructor
  · cases hargs : req.arguments with
    | none =>
      right
      exact ⟨"Missing arguments for tool call",
        by simp [PDFUtilitiesServer.callTool, hargs]⟩
    | some args =>
      cases hro : PDFUtilitiesServer.runOp cdc fs args now req.name with
      | none =>
        right
        exact ⟨"Unknown tool: " ++ req.name,
          by simp [PDFUtilitiesServer.callTool, hargs, hro]⟩
      | some t =>
        obtain ⟨fs', r, m⟩ := t
        cases r with
        | ok o =>
          left
          exact ⟨o, by simp [PDFUtilitiesServer.callTool, hargs, hro,
            PDFUtilitiesServer.wrapResult]⟩
        | error e =>
          right
          exact ⟨e, by simp [PDFUtilitiesServer.callTool, hargs, hro,
            PDFUtilitiesServer.wrapResult]⟩
  · intro hunk args hargs
    have h7 := hunk
    simp only [knownOps, List.mem_cons, List.not_mem_nil, or_false,
      not_or] at h7
    obtain ⟨h1, h2, h3, h4, h5, h6, h7'⟩ := h7
    simp [PDFUtilitiesServer.callTool, hargs, PDFUtilitiesServer.runOp,
      h1, h2, h3, h4, h5, h6, h7']

/-- Witness for C4 at a concrete unknown operation name. -/
theorem claim_C4_witness :
    PDFUtilitiesServer.callTool trivialCodec [] ⟨"bogus_tool", some emptyArgs⟩ 0 =
      ([], ⟨.fail ("Unknown tool: " ++ "bogus_tool"), true⟩, []) :=
  (claim_C4 trivialCodec [] ⟨"bogus_tool", some emptyArgs⟩ 0).2 (by decide)
    emptyArgs rfl

/-- C5: the claim says a known-operation call missing a declared required
field is rejected with an InvalidArguments failure naming the field, without
invoking the engine method; in fact the handler performs no per-field
validation: dispatching merge_pdfs without filePaths invokes the engine
method (the invocation trace is ["mergePDFs"]), which then throws a raw
TypeError that is wrapped as the generic failure payload. -/
theorem claim_C5_counterexample :
    (PDFUtilitiesServer.callTool trivialCodec []
        ⟨"merge_pdfs", some { emptyArgs with outputPath := some "out.pdf" }⟩
        0).2.2 = ["mergePDFs"] ∧
      (PDFUtilitiesServer.callTool trivialCodec []
        ⟨"merge_pdfs", some { emptyArgs with outputPath := some "out.pdf" }⟩
        0).2.1 =
        ⟨.fail "Cannot read properties of undefined (reading \x27length\x27)",
         true⟩ := by
  constructor <;> rfl

/-- C5 (amended): the handler performs no per-field schema validation: a
merge_pdfs call whose argument record lacks filePaths is passed straight to
the engine method, which is invoked and throws on `.length` of undefined;
that exception is caught and wrapped as the generic failure envelope (not an
InvalidArguments failure), leaving the filesystem unchanged.  Only a wholly
absent argument record is rejected before any engine invocation. -/
theorem claim_C5 (cdc : Codec) (fs : FS) (args : ToolArgs) (now : Nat)
    (h : args.filePaths = none) :
    PDFUtilitiesServer.callTool cdc fs ⟨"merge_pdfs", some args⟩ now =
      (fs,
       ⟨.fail "Cannot read properties of undefined (reading \x27length\x27)",
        true⟩,
       ["mergePDFs"]) := by
  have h1 : PDFUtilitiesServer.callTool cdc fs ⟨"merge_pdfs", some args⟩ now =
      ((PDFTools.mergePDFs fs args.filePaths args.outputPath now).1,
       PDFUtilitiesServer.wrapResult
         ((PDFTools.mergePDFs fs args.filePaths args.outputPath now).2.map
           .saved),
       ["mergePDFs"]) := rfl
  rw [h1, h]
  rfl

/-- Witness for C5's amended theorem at a concrete argument record. -/
theorem claim_C5_witness :
    PDFUtilitiesServer.callTool trivialCodec []
        ⟨"merge_pdfs", some { emptyArgs with outputPath := some "out.pdf" }⟩ 0 =
      ([],
       ⟨.fail "Cannot read properties of undefined (reading \x27length\x27)",
        true⟩,
       ["mergePDFs"]) :=
  claim_C5 trivialCodec [] { emptyArgs with outputPath := some "out.pdf" } 0 rfl

/-- Witness for C1's amended theorem: on a ten-page document, requesting
pages [1, 999] writes the page-1 file and then fails naming 999. -/
theorem claim_C1_witness :
    (PDFTools.extractPages fsTen (some "doc.pdf") (some [1, 999]) (some "out")
        none).2 = .error ("Invalid page number: " ++ toString (999 : Int)) ∧
      (PDFTools.extractPages fsTen (some "doc.pdf") (some [1, 999]) (some "out")
        none).1 = extractWrites fsTen (docN 10) "out" "page"
          (([1, 999] : List Int).takeWhile (isValidPage (docN 10).pages.length)) :=
  (claim_C1 fsTen "doc.pdf" (docN 10) [1, 999] (some "out") none rfl).2 999
    (by decide)

/-! ### Merge/split round trip (C6) -/

/-- C6: merging two readable documents A and B and then splitting the merged
file with the range expression "1-pageCount(A)" yields a document whose page
count equals A's page count (its pages are exactly A's pages). -/
theorem claim_C6 (fs : FS) (pA pB mp op : String) (A B : PDFDoc) (t1 t2 : Nat)
    (hA : fsLookup fs pA = some A) (hB : fsLookup fs pB = some B) :
    ∃ fs1 r1 fs2 r2,
      PDFTools.mergePDFs fs (some [pA, pB]) (some mp) t1 = (fs1, .ok r1) ∧
        PDFTools.splitPDF fs1 (some mp)
          (some ("1-" ++ toString A.pages.length)) (some op) t2 =
          (fs2, .ok r2) ∧
        r2.pages = A.pages.length ∧
        ∃ D, fsLookup fs2 op = some D ∧ D.pages.length = A.pages.length := by
  have hload : PDFTools.mergeLoad fs [pA, pB] =
      .ok (A.pages ++ (B.pages ++ [])) := by
    simp only [PDFTools.mergeLoad, hA, hB]
    rfl
  have hform : PDFTools.mergePDFs fs (some [pA, pB]) (some mp) t1 =
      (match PDFTools.mergeLoad fs [pA, pB] with
       | .error e => (fs, .error e)
       | .ok pgs =>
         (fsWrite fs mp ⟨pgs, PDFTools.mergeMeta t1⟩,
          .ok ⟨true, mp, pgs.length⟩)) := rfl
  have hmerge : PDFTools.mergePDFs fs (some [pA, pB]) (some mp) t1 =
      (fsWrite fs mp ⟨A.pages ++ (B.pages ++ []), PDFTools.mergeMeta t1⟩,
       .ok ⟨true, mp, (A.pages ++ (B.pages ++ [])).length⟩) := by
    rw [hform, hload]
  set M : PDFDoc :=
    ⟨A.pages ++ (B.pages ++ []), PDFTools.mergeMeta t1⟩ with hMdef
  have hlook1 : fsLookup (fsWrite fs mp M) mp = some M := by
    simp [fsLookup, fsWrite]
  have hMlen : M.pages.length = A.pages.length + (B.pages ++ []).length := by
    simp [hMdef]
  have hpr : PDFTools.parsePageRange ("1-" ++ toString A.pages.length)
      M.pages.length = List.range A.pages.length := by
    rw [hMlen]
    exact parsePageRange_one_to _ _
  have hcp : copyPages M (List.range A.pages.length) = .ok A.pages :=
    copyPages_prefix A.pages (B.pages ++ []) (PDFTools.mergeMeta t1)
  have hsplit : PDFTools.splitPDF (fsWrite fs mp M) (some mp)
      (some ("1-" ++ toString A.pages.length)) (some op) t2 =
      (fsWrite (fsWrite fs mp M) op ⟨A.pages, PDFTools.splitMeta t2⟩,
       .ok ⟨true, op, A.pages.length⟩) := by
    simp only [PDFTools.splitPDF, fsLookupO, hlook1, hpr, hcp]
  refine ⟨fsWrite fs mp M, ⟨true, mp, (A.pages ++ (B.pages ++ [])).length⟩,
    fsWrite (fsWrite fs mp M) op ⟨A.pages, PDFTools.splitMeta t2⟩,
    ⟨true, op, A.pages.length⟩, hmerge, hsplit, rfl,
    ⟨A.pages, PDFTools.splitMeta t2⟩, ?_, rfl⟩
  simp [fsLookup, fsWrite]

/-- Witness for C6 on concrete two- and three-page documents. -/
theorem claim_C6_witness :
    ∃ fs1 r1 fs2 r2,
      PDFTools.mergePDFs fsAB (some ["a.pdf", "b.pdf"]) (some "m.pdf") 0 =
        (fs1, .ok r1) ∧
        PDFTools.splitPDF fs1 (some "m.pdf")
          (some ("1-" ++ toString (docN 2).pages.length)) (some "out.pdf") 1 =
          (fs2, .ok r2) ∧
        r2.pages = (docN 2).pages.length ∧
        ∃ D, fsLookup fs2 "out.pdf" = some D ∧
          D.pages.length = (docN 2).pages.length :=
  claim_C6 fsAB "a.pdf" "b.pdf" "m.pdf" "out.pdf" (docN 2) (docN 3) 0 1
    rfl rfl
